import Mathlib

/-!
Verification of the scheduler subsystem of `llmer/free-claw`.

The definitions below are a shallow embedding of the TypeScript sources:

* `src/scheduler/types.ts`   — job data model (`CronSchedule`, `ScheduledJob`, …)
* `src/scheduler/schedule.ts` — `computeNextRunAtMs` (schedule calculator)
* `src/scheduler/store.ts`   — `loadSchedulerStore` / `saveSchedulerStore`
* `src/scheduler/service.ts` — `SchedulerService` (backoff ladder, due-set
  computation, missed-job recovery, force-run, result application)

Modelling conventions:
* JavaScript epoch-millisecond numbers are modelled as `Int`; the sources only
  ever hold integral millisecond values here, so `Math.floor` on them is the
  identity and `Number.isFinite` always holds for arithmetic results.
* Fallible operations (the croner constructor throwing on a malformed pattern)
  are modelled with `Except String`; optional values with `Option`.
* The external `croner` cron evaluator, `Date` parsing and the host timezone
  are not part of the repository; they enter as an explicit `CronerLib`
  capability record, and theorems quantify over it wherever the library's
  behaviour is irrelevant to the property.
* In-place mutation of a job object aliased inside `store.jobs` is modelled by
  replacing the list entry with the same `id`.
-/

/-- `"ok" | "error"` — terminal status of one run (executor result). -/
inductive RunStatus where
  | ok
  | error
deriving DecidableEq, Repr

/-- `"ok" | "error" | "skipped"` — the `lastStatus` field of a job state. -/
inductive LastStatus where
  | ok
  | error
  | skipped
deriving DecidableEq, Repr

/-- Embeds a terminal `RunStatus` into the `lastStatus` field's type. -/
def toLastStatus : RunStatus → LastStatus
  | RunStatus.ok => LastStatus.ok
  | RunStatus.error => LastStatus.error

/-- `CronSchedule` from `src/scheduler/types.ts`: tagged union of a one-shot
instant (ISO string), a fixed interval with optional anchor, and a cron
expression with optional timezone. -/
inductive CronSchedule where
  | at (at_ : String)
  | every (everyMs : Int) (anchorMs : Option Int)
  | cron (expr : String) (tz : Option String)
deriving DecidableEq, Repr

/-- `job.schedule.kind === "at"`. -/
def isAtKind : CronSchedule → Bool
  | CronSchedule.at _ => true
  | _ => false

/-- `job.schedule.kind === "cron"`. -/
def isCronKind : CronSchedule → Bool
  | CronSchedule.cron _ _ => true
  | _ => false

/-- `ScheduledJobState` from `src/scheduler/types.ts`. -/
structure ScheduledJobState where
  nextRunAtMs : Option Int := none
  runningAtMs : Option Int := none
  lastRunAtMs : Option Int := none
  lastStatus : Option LastStatus := none
  lastError : Option String := none
  lastDurationMs : Option Int := none
  consecutiveErrors : Option Int := none
deriving DecidableEq, Repr

/-- `ScheduledJob` from `src/scheduler/types.ts`. -/
structure ScheduledJob where
  id : String
  name : String
  chatId : Int
  workDir : String
  prompt : String
  schedule : CronSchedule
  enabled : Bool
  deleteAfterRun : Bool
  createdAt : String
  userTimezone : Option String := none
  state : ScheduledJobState
deriving DecidableEq, Repr

/-- `SchedulerStoreFile` from `src/scheduler/types.ts`; `timezones` is an
optional per-chat map, modelled as an association list. -/
structure SchedulerStoreFile where
  version : Int
  jobs : List ScheduledJob
  timezones : Option (List (String × String))
deriving DecidableEq, Repr

/-- The terminal result handed to `applyJobResult` in
`src/scheduler/service.ts` (`{status, error, startedAt, endedAt}`). -/
structure RunResult where
  status : RunStatus
  error : Option String := none
  startedAt : Int
  endedAt : Int
deriving DecidableEq, Repr

/-- Capability record for everything `computeNextRunAtMs` consumes from
outside the repository: `new Date(string).getTime()` parsing (`none` models a
non-finite result), the croner `Cron` constructor (`ctorError expr tz = some e`
models the constructor throwing `e` on a malformed pattern), croner's
`nextRun` query from a given instant (`none` models "no next occurrence" and
also folds in the source's `Number.isFinite` rejection), and the host
timezone returned by `Intl.DateTimeFormat().resolvedOptions().timeZone`. -/
structure CronerLib where
  parseDateMs : String → Option Int
  ctorError : String → String → Option String
  nextRun : String → String → Int → Option Int
  hostTz : String

/-- `MIN_REFIRE_GAP_MS` from `src/scheduler/service.ts`. -/
def MIN_REFIRE_GAP_MS : Int := 2000

/-- `ERROR_BACKOFF_MS` from `src/scheduler/service.ts`: 30 s, 1 min, 5 min,
15 min, 60 min. -/
def ERROR_BACKOFF_MS : List Int := [30000, 60000, 300000, 900000, 3600000]

/-- `errorBackoffMs` from `src/scheduler/service.ts`:
`idx = min(consecutiveErrors - 1, len - 1)` then `ladder[max(0, idx)]`. -/
def errorBackoffMs (consecutiveErrors : Int) : Int :=
  let idx := min (consecutiveErrors - 1) ((ERROR_BACKOFF_MS.length : Int) - 1)
  ERROR_BACKOFF_MS.getD (max 0 idx).toNat 0

/-- JavaScript `String.prototype.trim`, modelled over the character list
(the Lean builtin's position-based recursion does not reduce in the kernel):
drop whitespace from both ends. -/
def strTrim (s : String) : String :=
  String.mk (((s.data.dropWhile Char.isWhitespace).reverse.dropWhile
    Char.isWhitespace).reverse)

/-- `resolveCronTimezone` from `src/scheduler/schedule.ts`: trim the given
timezone, fall back to the host timezone when empty or absent. -/
def resolveCronTimezone (lib : CronerLib) (tz : Option String) : String :=
  let trimmed := strTrim (tz.getD "")
  if trimmed = "" then lib.hostTz else trimmed

/-- The `kind === "every"` branch of `computeNextRunAtMs`
(`src/scheduler/schedule.ts`): interval clamped to at least 1, anchor clamped
to at least 0 and defaulting to `nowMs`; returns the anchor if it is still in
the future, otherwise advances by `max 1 ⌈elapsed / interval⌉` steps
(`Math.floor((elapsed + everyMs - 1) / everyMs)` is that ceiling). -/
def everyNextRunAtMs (everyMs0 : Int) (anchorMs : Option Int) (nowMs : Int) : Int :=
  let everyMs := max 1 everyMs0
  let anchor := max 0 (anchorMs.getD nowMs)
  if nowMs < anchor then anchor
  else
    let elapsed := nowMs - anchor
    let steps := max 1 (Int.fdiv (elapsed + everyMs - 1) everyMs)
    anchor + steps * everyMs

/-- `computeNextRunAtMs` from `src/scheduler/schedule.ts`.
`Except.error` models an exception escaping the function (only the croner
constructor can throw here); `Except.ok none` models `undefined` ("never"). -/
def computeNextRunAtMs (lib : CronerLib) (schedule : CronSchedule) (nowMs : Int) :
    Except String (Option Int) :=
  match schedule with
  | CronSchedule.at s =>
    match lib.parseDateMs s with
    | none => Except.ok none
    | some atMs => Except.ok (if nowMs < atMs then some atMs else none)
  | CronSchedule.every e a => Except.ok (some (everyNextRunAtMs e a nowMs))
  | CronSchedule.cron e0 tz =>
    let e := strTrim e0
    if e = "" then Except.ok none
    else
      match lib.ctorError e (resolveCronTimezone lib tz) with
      | some err => Except.error err
      | none =>
        match lib.nextRun e (resolveCronTimezone lib tz) nowMs with
        | none => Except.ok none
        | some nextMs =>
          if nowMs < nextMs then Except.ok (some nextMs)
          else
            match lib.nextRun e (resolveCronTimezone lib tz)
                (Int.fdiv nowMs 1000 * 1000 + 1000) with
            | none => Except.ok none
            | some retryMs => Except.ok (if nowMs < retryMs then some retryMs else none)

/-- The JSON value read back from the canonical store file
(`src/scheduler/store.ts`). `nonObject` covers a parse result failing the
`parsed && typeof parsed === "object"` check; in `object`, `jobs = none`
covers both a missing key and a non-array value (`Array.isArray` fails),
entries of value `none` are JSON `null`s dropped by `.filter(Boolean)`, and
`timezones = none` is a missing key handled by `?? \x7b\x7d`.
JSON serialization of well-typed values is modelled as the identity. -/
inductive StoreFileJson where
  | nonObject
  | object (version : Option Int) (jobs : Option (List (Option ScheduledJob)))
      (timezones : Option (List (String × String)))
deriving DecidableEq, Repr

/-- What `saveSchedulerStore` (`src/scheduler/store.ts`) leaves in the
canonical file after `JSON.stringify` + temp-file write + atomic rename.
The unique temp name, the rename and the best-effort `.bak` copy are below
the JSON level modelled here. -/
def serializeStore (s : SchedulerStoreFile) : StoreFileJson :=
  StoreFileJson.object (some s.version) (some (s.jobs.map some)) s.timezones

/-- `loadSchedulerStore` from `src/scheduler/store.ts`, as a function of the
canonical file's content (`none` = `ENOENT`). -/
def loadSchedulerStore (file : Option StoreFileJson) : SchedulerStoreFile :=
  match file with
  | none =>
    { version := 1, jobs := [], timezones := some [] }
  | some StoreFileJson.nonObject =>
    { version := 1, jobs := [], timezones := some [] }
  | some (StoreFileJson.object _ jobs tzs) =>
    { version := 1,
      jobs := match jobs with
        | some arr => arr.filterMap id
        | none => [],
      timezones := some (tzs.getD []) }

/-- Observable equality of two stores: same version, same job list, same
timezone map (a missing map being observably the empty map, which is how
every reader of `timezones` treats it). -/
def storeObsEq (x y : SchedulerStoreFile) : Prop :=
  x.version = y.version ∧ x.jobs = y.jobs ∧ x.timezones.getD [] = y.timezones.getD []

/-- `SchedulerService.findDueJobs` from `src/scheduler/service.ts`: enabled,
not running, `nextRunAtMs` present and `≤ now`. -/
def findDueJobs (jobs : List ScheduledJob) (nowMs : Int) : List ScheduledJob :=
  jobs.filter fun job =>
    job.enabled &&
    !job.state.runningAtMs.isSome &&
    (match job.state.nextRunAtMs with
     | some next => decide (next ≤ nowMs)
     | none => false)

/-- The selection filter of `SchedulerService.runMissedJobs`
(`src/scheduler/service.ts`): like the due set, but additionally skipping
`at` jobs that already carry a terminal `lastStatus`. -/
def runMissedJobsSelect (jobs : List ScheduledJob) (nowMs : Int) : List ScheduledJob :=
  jobs.filter fun job =>
    job.enabled &&
    !job.state.runningAtMs.isSome &&
    !(isAtKind job.schedule && job.state.lastStatus.isSome) &&
    (match job.state.nextRunAtMs with
     | some next => decide (next ≤ nowMs)
     | none => false)

/-- JavaScript `String.prototype.startsWith`, modelled over the character
list (the Lean builtin's byte-level loop does not reduce in the kernel). -/
def strStartsWith (s p : String) : Bool :=
  p.data.isPrefixOf s.data

/-- `SchedulerService.forceRunJob` from `src/scheduler/service.ts`: find the
first job matching the chat id and the id-prefix and fire `executeJob` on it
unconditionally. The returned job is the one executed; `none` models the
`return false` path. -/
def forceRunJob (jobs : List ScheduledJob) (chatId : Int) (pre : String) :
    Option ScheduledJob :=
  jobs.find? fun j => j.chatId == chatId && strStartsWith j.id pre

/-- `SchedulerService.listJobs` from `src/scheduler/service.ts`. -/
def listJobs (jobs : List ScheduledJob) (chatId : Option Int) : List ScheduledJob :=
  match chatId with
  | none => jobs
  | some c => jobs.filter fun j => j.chatId == c

/-- `SchedulerService.applyJobResult` from `src/scheduler/service.ts`,
line by line: clear the running marker, record last-run bookkeeping, update
`consecutiveErrors`, then branch on schedule kind / status / enabled exactly
as the source does. An exception thrown by `computeNextRunAtMs` propagates. -/
def applyJobResult (lib : CronerLib) (job : ScheduledJob) (r : RunResult) :
    Except String ScheduledJob :=
  let consec : Int :=
    if r.status == RunStatus.error then job.state.consecutiveErrors.getD 0 + 1 else 0
  let s1 : ScheduledJobState :=
    { job.state with
      runningAtMs := none,
      lastRunAtMs := some r.startedAt,
      lastStatus := some (toLastStatus r.status),
      lastDurationMs := some (max 0 (r.endedAt - r.startedAt)),
      lastError := r.error,
      consecutiveErrors := some consec }
  if isAtKind job.schedule then
    Except.ok { job with enabled := false, state := { s1 with nextRunAtMs := none } }
  else if r.status == RunStatus.error && job.enabled then
    let backoff := errorBackoffMs (s1.consecutiveErrors.getD 1)
    match computeNextRunAtMs lib job.schedule r.endedAt with
    | Except.error e => Except.error e
    | Except.ok normalNext =>
      let backoffNext := r.endedAt + backoff
      Except.ok { job with state :=
        { s1 with nextRunAtMs := some (match normalNext with
          | some n => max n backoffNext
          | none => backoffNext) } }
  else if job.enabled then
    match computeNextRunAtMs lib job.schedule r.endedAt with
    | Except.error e => Except.error e
    | Except.ok naturalNext =>
      if isCronKind job.schedule then
        let minNext := r.endedAt + MIN_REFIRE_GAP_MS
        Except.ok { job with state :=
          { s1 with nextRunAtMs := some (match naturalNext with
            | some n => max n minNext
            | none => minNext) } }
      else
        Except.ok { job with state := { s1 with nextRunAtMs := naturalNext } }
  else
    Except.ok { job with state := { s1 with nextRunAtMs := none } }

/-- The tail of `SchedulerService.executeJob` (`src/scheduler/service.ts`)
after the executor has produced its terminal result: apply the result to the
aliased job inside `store.jobs` (modelled as replace-by-id), then remove the
job when `schedule.kind === "at" && deleteAfterRun && status === "ok"`. -/
def executeJobPost (lib : CronerLib) (jobs : List ScheduledJob) (job : ScheduledJob)
    (r : RunResult) : Except String (List ScheduledJob) :=
  match applyJobResult lib job r with
  | Except.error e => Except.error e
  | Except.ok applied =>
    let jobs2 := jobs.map fun j => if j.id == job.id then applied else j
    let shouldDelete :=
      isAtKind job.schedule && job.deleteAfterRun && (r.status == RunStatus.ok)
    Except.ok (if shouldDelete then jobs2.filter (fun j => !(j.id == job.id)) else jobs2)

/-- Projects the `nextRunAtMs` of the job produced by a result application;
`none` when the application itself threw. -/
def nextRunAfter (x : Except String ScheduledJob) : Option (Option Int) :=
  match x with
  | Except.ok j => some j.state.nextRunAtMs
  | Except.error _ => none

/-- Projects the `enabled` flag of the job produced by a result application. -/
def enabledAfter (x : Except String ScheduledJob) : Option Bool :=
  match x with
  | Except.ok j => some j.enabled
  | Except.error _ => none

/-- Projects the job collection produced by `executeJobPost`; empty when the
execution path threw. -/
def jobsAfter (x : Except String (List ScheduledJob)) : List ScheduledJob :=
  match x with
  | Except.ok l => l
  | Except.error _ => []

/-! ### Concrete fixtures used by witnesses and counterexamples -/

/-- A trivial evaluator environment: date parsing always fails, the cron
constructor never throws, and `nextRun` always reports the epoch. Used to
instantiate theorems that hold for every `CronerLib`. -/
def lib0 : CronerLib :=
  { parseDateMs := fun _ => none,
    ctorError := fun _ _ => none,
    nextRun := fun _ _ _ => some 0,
    hostTz := "UTC" }

/-- A second trivial evaluator whose `nextRun` always advances by one second;
used where a witness needs a cron query that succeeds. -/
def lib1 : CronerLib :=
  { parseDateMs := fun _ => none,
    ctorError := fun _ _ => none,
    nextRun := fun _ _ t => some (t + 1000),
    hostTz := "UTC" }

/-- The error message the modelled croner constructor throws. -/
def cronerBadMsg : String := "CronPattern: invalid pattern"

/-- Number of space-separated fields in a pattern (maximal runs of
non-space characters). -/
def countFields (l : List Char) (inWord : Bool) : Nat :=
  match l with
  | [] => 0
  | c :: rest =>
    if c = ' ' then countFields rest false
    else (if inWord then 0 else 1) + countFields rest true

/-- Modelled from the spec: the cron evaluation that `computeNextRunAtMs`
delegates to (§4.1 "Delegate to a standard cron-expression evaluator") is the
external `croner` library, whose source is not part of this repository. A
standard five-field evaluator (six fields with optional seconds) rejects a
pattern with any other field count, and croner's documented `Cron`
constructor behaviour is to throw on such a malformed pattern — which is what
`ctorError` captures; per-field validation and `@`-nicknames are not
exercised by any theorem below and are left out. `nextRun` is irrelevant to
the malformed-pattern question and returns no occurrence. -/
def cronerModel : CronerLib :=
  { parseDateMs := fun _ => none,
    ctorError := fun expr _ =>
      let n := countFields expr.data false
      if n = 5 ∨ n = 6 then none else some cronerBadMsg,
    nextRun := fun _ _ _ => none,
    hostTz := "UTC" }

/-- A neutral job record; fixtures below adjust individual fields. -/
def baseJob : ScheduledJob :=
  { id := "job-1", name := "job-1", chatId := 1, workDir := "w", prompt := "p",
    schedule := CronSchedule.every 60000 (some 0), enabled := true,
    deleteAfterRun := false, createdAt := "2025-01-01", state := {} }

/-! ### Helper lemmas -/

/-- Ceiling-step arithmetic of the `every` branch: with `0 ≤ e` (elapsed) and
`1 ≤ b` (interval), `steps = max 1 ⌈e / b⌉` satisfies `e ≤ steps * b`, with
equality exactly when `e` is a positive multiple of `b`. -/
theorem every_steps_core (e b : Int) (he : 0 ≤ e) (hb : 1 ≤ b) :
    e ≤ (max 1 (Int.fdiv (e + b - 1) b)) * b ∧
    ((max 1 (Int.fdiv (e + b - 1) b)) * b = e ↔ ∃ k : Int, 1 ≤ k ∧ e = k * b) := by
  have hb0 : (0:Int) < b := by omega
  have hnum : 0 ≤ e + b - 1 := by omega
  rw [Int.fdiv_eq_ediv _ (le_of_lt hb0)]
  have hmod := Int.ediv_add_emod (e + b - 1) b
  have hr0 : 0 ≤ (e + b - 1) % b := Int.emod_nonneg _ (by omega)
  have hrb : (e + b - 1) % b < b := Int.emod_lt_of_pos _ hb0
  have hq0 : 0 ≤ (e + b - 1) / b := Int.ediv_nonneg hnum (le_of_lt hb0)
  have hqb : e ≤ b * ((e + b - 1) / b) := by linarith
  constructor
  · rcases le_or_lt 1 ((e + b - 1) / b) with h1 | h1
    · rw [max_eq_right h1, mul_comm]; exact hqb
    · have hq00 : (e + b - 1) / b = 0 := by omega
      rw [hq00] at hmod
      rw [hq00]
      simp only [max_self, one_mul, max_eq_left (by norm_num : (0:Int) ≤ 1)]
      omega
  · constructor
    · intro hEq
      exact ⟨max 1 ((e + b - 1) / b), le_max_left _ _, hEq.symm⟩
    · rintro ⟨k, hk1, hke⟩
      have hsplit : e + b - 1 = (b - 1) + k * b := by rw [hke]; ring
      have hq_eq : (e + b - 1) / b = k := by
        rw [hsplit, Int.add_mul_ediv_right _ _ (by omega : b ≠ 0),
          Int.ediv_eq_zero_of_lt (by omega) (by omega), zero_add]
      rw [hq_eq, max_eq_right hk1]
      exact hke.symm

/-- The ladder list has five entries. -/
theorem backoff_len : ((ERROR_BACKOFF_MS.length : Nat) : Int) = 5 := by
  simp [ERROR_BACKOFF_MS]

/-- Index-level monotonicity of the ladder inside its bounds. -/
theorem backoff_idx_mono :
    ∀ i < 5, ∀ j < 5, i ≤ j → ERROR_BACKOFF_MS.getD i 0 ≤ ERROR_BACKOFF_MS.getD j 0 := by
  decide

/-! ### Claims -/

/-- C8: the backoff policy is a pure function of the consecutive-error count,
monotonically non-decreasing in it, taking the values 30 s, 1 min, 5 min,
15 min, 60 min at counts 1–5, and returning 60 min for every count beyond the
ladder length. -/
theorem backoff_ladder_props :
    (∀ m n : Int, m ≤ n → errorBackoffMs m ≤ errorBackoffMs n) ∧
    (errorBackoffMs 1 = 30000 ∧ errorBackoffMs 2 = 60000 ∧ errorBackoffMs 3 = 300000 ∧
      errorBackoffMs 4 = 900000 ∧ errorBackoffMs 5 = 3600000) ∧
    (∀ n : Int, 5 ≤ n → errorBackoffMs n = 3600000) := by
  refine ⟨?_, ⟨by decide, by decide, by decide, by decide, by decide⟩, ?_⟩
  · intro m n h
    simp only [errorBackoffMs, backoff_len]
    apply backoff_idx_mono <;> omega
  · intro n h
    simp only [errorBackoffMs, backoff_len]
    have hx : (max 0 (min (n - 1) ((5:Int) - 1))).toNat = 4 := by omega
    rw [hx]
    rfl

/-- Witness for C8 at concrete counts. -/
theorem backoff_ladder_props_witness :
    errorBackoffMs 2 ≤ errorBackoffMs 7 ∧ errorBackoffMs 9 = 3600000 :=
  ⟨backoff_ladder_props.1 2 7 (by decide), backoff_ladder_props.2.2 9 (by decide)⟩

/-- C3: the `Every` branch of the calculator returns the clamped anchor when
`now` precedes it, and otherwise `anchor + steps·interval` with
`steps = max 1 ⌈(now − anchor)/interval⌉` (interval clamped to ≥ 1, anchor to
≥ 0), a value that is `≥ now`, equals `now` exactly when `now` sits on a
boundary `anchor + k·interval` with `k ≥ 1`, and is congruent to the anchor
modulo the effective interval. -/
theorem every_computeNextRun_correct (lib : CronerLib) (ems : Int) (anc : Option Int)
    (now a b : Int) (hb : b = max 1 ems) (ha : a = max 0 (anc.getD now)) :
    computeNextRunAtMs lib (CronSchedule.every ems anc) now =
      Except.ok (some (everyNextRunAtMs ems anc now)) ∧
    (now < a → everyNextRunAtMs ems anc now = a) ∧
    (a ≤ now →
      everyNextRunAtMs ems anc now = a + max 1 (Int.fdiv (now - a + b - 1) b) * b ∧
      now ≤ everyNextRunAtMs ems anc now ∧
      (everyNextRunAtMs ems anc now = now ↔ ∃ k : Int, 1 ≤ k ∧ now = a + k * b) ∧
      (everyNextRunAtMs ems anc now - a) % b = 0) := by
  subst hb ha
  refine ⟨rfl, ?_, ?_⟩
  · intro hlt
    simp only [everyNextRunAtMs, if_pos hlt]
  · intro hge
    have h := every_steps_core (now - max 0 (anc.getD now)) (max 1 ems)
      (by omega) (le_max_left _ _)
    simp only [everyNextRunAtMs, if_neg (not_lt.mpr hge)]
    refine ⟨by trivial, by linarith [h.1], ?_, ?_⟩
    · constructor
      · intro hEq
        obtain ⟨k, hk, hke⟩ := h.2.mp (by linarith)
        exact ⟨k, hk, by linarith⟩
      · rintro ⟨k, hk, hke⟩
        have := h.2.mpr ⟨k, hk, by linarith⟩
        linarith
    · have hc : max 0 (anc.getD now) +
          max 1 (Int.fdiv (now - max 0 (anc.getD now) + max 1 ems - 1) (max 1 ems)) *
            max 1 ems - max 0 (anc.getD now) =
          max 1 (Int.fdiv (now - max 0 (anc.getD now) + max 1 ems - 1) (max 1 ems)) *
            max 1 ems := by ring
      rw [hc]
      exact Int.mul_emod_left _ _

/-- Loading the serialization of a version-1 store reconstructs an observably
equal store: the jobs list survives `filter(Boolean)` untouched and a missing
timezone map comes back as the observably-equal empty map. -/
theorem load_serialize_obs (s : SchedulerStoreFile) (hv : s.version = 1) :
    storeObsEq (loadSchedulerStore (some (serializeStore s))) s := by
  refine ⟨?_, ?_, ?_⟩
  · simp [loadSchedulerStore, serializeStore, hv]
  · simp only [loadSchedulerStore, serializeStore, List.filterMap_map]
    rw [show (id ∘ some : ScheduledJob → Option ScheduledJob) = some from rfl,
      List.filterMap_some]
  · cases htz : s.timezones <;> simp [loadSchedulerStore, serializeStore, htz]

/-- Every load result carries `version = 1`. -/
theorem load_version (f : Option StoreFileJson) : (loadSchedulerStore f).version = 1 := by
  rcases f with _ | f
  · rfl
  · rcases f with _ | ⟨v, j, t⟩ <;> rfl

/-- C9: `load` after `save(s)` reconstructs a store observably equal to `s`,
and `save(load())` is a no-op with respect to observable state (the backup
file is outside the modelled observable state). -/
theorem store_roundtrip (s : SchedulerStoreFile) (f : Option StoreFileJson)
    (hv : s.version = 1) :
    storeObsEq (loadSchedulerStore (some (serializeStore s))) s ∧
    storeObsEq (loadSchedulerStore (some (serializeStore (loadSchedulerStore f))))
      (loadSchedulerStore f) :=
  ⟨load_serialize_obs s hv, load_serialize_obs _ (load_version f)⟩

/-- A concrete one-job store. -/
def store0 : SchedulerStoreFile :=
  { version := 1, jobs := [baseJob], timezones := some [("1", "UTC")] }

/-- Witness for C9 at a concrete store. -/
theorem store_roundtrip_witness :
    store0.version = 1 ∧
    storeObsEq (loadSchedulerStore (some (serializeStore store0))) store0 :=
  ⟨rfl, (store_roundtrip store0 none rfl).1⟩

/-- C1 (amended): the timer-tick due-set computation and the missed-job
recovery selection never pick a job with `runningAtMs` set, but the force-run
path (see the counterexample) executes its first chat/prefix match without
consulting `runningAtMs`, so the at-most-one-run-in-flight guard holds only
for the two timer-driven paths. -/
theorem dispatch_skips_running (jobs : List ScheduledJob) (now : Int) (j : ScheduledJob) :
    (j ∈ findDueJobs jobs now → j.state.runningAtMs = none) ∧
    (j ∈ runMissedJobsSelect jobs now → j.state.runningAtMs = none) := by
  constructor
  · intro hmem
    have hp := (List.mem_filter.mp hmem).2
    simp only [Bool.and_eq_true, Bool.not_eq_true'] at hp
    cases hrm : j.state.runningAtMs with
    | none => rfl
    | some t => rw [hrm] at hp; simp at hp
  · intro hmem
    have hp := (List.mem_filter.mp hmem).2
    simp only [Bool.and_eq_true, Bool.not_eq_true'] at hp
    cases hrm : j.state.runningAtMs with
    | none => rfl
    | some t => rw [hrm] at hp; simp at hp

/-- A due, idle job used to witness the timer-path guard. -/
def jDue : ScheduledJob :=
  { baseJob with id := "due", state := { nextRunAtMs := some 0 } }

/-- Witness for C1's amended guarantee on a concrete due set. -/
theorem dispatch_skips_running_witness :
    jDue ∈ findDueJobs [jDue] 10 ∧ jDue.state.runningAtMs = none :=
  ⟨by decide, (dispatch_skips_running [jDue] 10 jDue).1 (by decide)⟩

/-- A job whose previous run is still in flight (`runningAtMs` set). -/
def jRunning : ScheduledJob :=
  { baseJob with id := "abc", state := { runningAtMs := some 5, nextRunAtMs := some 0 } }

/-- C1 counterexample: `forceRunJob` finds the chat/prefix match and fires
`executeJob` on it unconditionally (`src/scheduler/service.ts` lines
149–158), here a job whose `runningAtMs` is set — refuting "in every dispatch
path a job with `runningAtMs` present is not executed". -/
theorem forceRun_executes_running_job :
    forceRunJob [jRunning] 1 "a" = some jRunning ∧
    jRunning.state.runningAtMs = some 5 := by
  constructor
  · decide
  · rfl

/-- C10: `forceRunJob` succeeds exactly when some job matches the chat id and
id prefix, executes the first such match regardless of its `enabled` flag,
and a disabled recurring job is left with `nextRunAtMs` absent after its
result is applied. -/
theorem forceRun_spec (jobs : List ScheduledJob) (c : Int) (p : String) :
    ((forceRunJob jobs c p).isSome = true ↔
      ∃ j, j ∈ jobs ∧ j.chatId = c ∧ strStartsWith j.id p = true) ∧
    (∀ l1 j l2, jobs = l1 ++ j :: l2 →
      (∀ i, i ∈ l1 → ¬(i.chatId = c ∧ strStartsWith i.id p = true)) →
      j.chatId = c → strStartsWith j.id p = true →
      forceRunJob jobs c p = some j) ∧
    (∀ (lib : CronerLib) (j : ScheduledJob) (r : RunResult),
      j.enabled = false → isAtKind j.schedule = false →
      nextRunAfter (applyJobResult lib j r) = some none) := by
  refine ⟨?_, ?_, ?_⟩
  · rw [forceRunJob, List.find?_isSome]
    constructor
    · rintro ⟨x, hx, hpx⟩
      simp only [Bool.and_eq_true, beq_iff_eq] at hpx
      exact ⟨x, hx, hpx.1, hpx.2⟩
    · rintro ⟨x, hx, hc, hp⟩
      refine ⟨x, hx, ?_⟩
      simp only [Bool.and_eq_true, beq_iff_eq]
      exact ⟨hc, hp⟩
  · intro l1 j l2 hjobs hskip hc hp
    subst hjobs
    rw [forceRunJob]
    induction l1 with
    | nil =>
      apply List.find?_cons_of_pos
      simp only [Bool.and_eq_true, beq_iff_eq]
      exact ⟨hc, hp⟩
    | cons a as ih =>
      rw [List.cons_append, List.find?_cons_of_neg]
      · exact ih fun i hi => hskip i (List.mem_cons_of_mem a hi)
      · have ha := hskip a (List.mem_cons_self a as)
        simp only [Bool.and_eq_true, beq_iff_eq]
        exact fun hcontra => ha hcontra
  · intro lib j r hen hat
    simp only [applyJobResult, hat, hen, Bool.and_false, Bool.false_eq_true,
      if_false, nextRunAfter]

/-- A disabled recurring (cron) job. -/
def jDisabledCron : ScheduledJob :=
  { baseJob with
    id := "dc",
    schedule := CronSchedule.cron "0 * * * *" none,
    enabled := false }

/-- A successful run result. -/
def r0 : RunResult := { status := RunStatus.ok, startedAt := 100, endedAt := 150 }

/-- A failed run result. -/
def rErr : RunResult :=
  { status := RunStatus.error, error := some "boom", startedAt := 100, endedAt := 150 }

/-- Witness for C10: a disabled cron job is still found and executed by
force-run, and ends up with no `nextRunAtMs`. -/
theorem forceRun_spec_witness :
    (forceRunJob [jDisabledCron] 1 "d").isSome = true ∧
    forceRunJob [jDisabledCron] 1 "d" = some jDisabledCron ∧
    nextRunAfter (applyJobResult lib0 jDisabledCron r0) = some none :=
  ⟨(forceRun_spec [jDisabledCron] 1 "d").1.mpr
      ⟨jDisabledCron, by decide, rfl, by decide⟩,
   (forceRun_spec [jDisabledCron] 1 "d").2.1 [] jDisabledCron [] rfl
      (by intro i hi; simp at hi) rfl (by decide),
   (forceRun_spec [jDisabledCron] 1 "d").2.2 lib0 jDisabledCron r0 rfl rfl⟩

/-- C2: for an enabled recurring job finishing with status `error` whose
natural next run is `n`, the new `nextRunAtMs` is
`max n (endedAt + backoff(newCount))` with `newCount` the incremented
consecutive-error count — backoff never shortens the natural schedule — and
in particular after the third consecutive error (covering the Cron scenario),
when the natural cadence would fire within the 5-minute backoff, the next run
is exactly `endedAt + 300000`. -/
theorem backoff_reschedule_correct (lib : CronerLib) (job : ScheduledJob) (r : RunResult)
    (n : Int) (hat : isAtKind job.schedule = false) (hen : job.enabled = true)
    (herr : r.status = RunStatus.error)
    (hnat : computeNextRunAtMs lib job.schedule r.endedAt = Except.ok (some n)) :
    nextRunAfter (applyJobResult lib job r) =
      some (some (max n (r.endedAt +
        errorBackoffMs (job.state.consecutiveErrors.getD 0 + 1)))) ∧
    (job.state.consecutiveErrors.getD 0 = 2 → n ≤ r.endedAt + 300000 →
      nextRunAfter (applyJobResult lib job r) =
        some (some (r.endedAt + 300000))) := by
  have hmain : nextRunAfter (applyJobResult lib job r) =
      some (some (max n (r.endedAt +
        errorBackoffMs (job.state.consecutiveErrors.getD 0 + 1)))) := by
    simp only [applyJobResult, hat, hen, herr, beq_self_eq_true, Bool.and_self,
      Bool.false_eq_true, if_false, if_true, hnat, Option.getD_some, nextRunAfter]
  refine ⟨hmain, fun h2 hle => ?_⟩
  rw [hmain, h2]
  have hb : errorBackoffMs (2 + 1) = 300000 := by decide
  rw [hb, max_eq_right hle]

/-- A recurring job that has already failed twice in a row. -/
def jTwoErrs : ScheduledJob :=
  { baseJob with
    id := "e2",
    state := { consecutiveErrors := some 2, nextRunAtMs := some 0 } }

/-- Witness for C2: the third consecutive error pushes the next run to
`endedAt + 300000` although the 60 s cadence would fire sooner. -/
theorem backoff_reschedule_correct_witness :
    nextRunAfter (applyJobResult lib0 jTwoErrs
      { status := RunStatus.error, error := some "boom", startedAt := 100, endedAt := 150 }) =
      some (some (150 + 300000)) :=
  (backoff_reschedule_correct lib0 jTwoErrs
      { status := RunStatus.error, error := some "boom", startedAt := 100, endedAt := 150 }
      60000 rfl rfl rfl rfl).2 (by decide) (by decide)

/-- C5 (amended): when the calculator reports "never" for an enabled cron
job, result application does NOT leave `nextRunAtMs` absent: the error branch
assigns `endedAt + backoff` and the success branch assigns
`endedAt + MIN_REFIRE_GAP_MS`, so the job can fire again. Only the `at` and
disabled branches leave `nextRunAtMs` absent. -/
theorem never_schedule_fallback (lib : CronerLib) (job : ScheduledJob) (r : RunResult)
    (e : String) (tz : Option String) (hcron : job.schedule = CronSchedule.cron e tz)
    (hen : job.enabled = true)
    (hnone : computeNextRunAtMs lib job.schedule r.endedAt = Except.ok none) :
    (r.status = RunStatus.error →
      nextRunAfter (applyJobResult lib job r) =
        some (some (r.endedAt +
          errorBackoffMs (job.state.consecutiveErrors.getD 0 + 1)))) ∧
    (r.status = RunStatus.ok →
      nextRunAfter (applyJobResult lib job r) =
        some (some (r.endedAt + MIN_REFIRE_GAP_MS))) := by
  have hat : isAtKind job.schedule = false := by rw [hcron]; rfl
  have hck : isCronKind job.schedule = true := by rw [hcron]; rfl
  constructor
  · intro herr
    simp only [applyJobResult, hat, hen, herr, beq_self_eq_true, Bool.and_self,
      Bool.false_eq_true, if_false, if_true, hnone, Option.getD_some, nextRunAfter]
  · intro hok
    simp only [applyJobResult, hat, hck, hen, hok,
      show (RunStatus.ok == RunStatus.error) = false from rfl, Bool.false_and,
      Bool.and_true, Bool.false_eq_true, if_false, if_true, hnone, nextRunAfter]

/-- An enabled cron job whose expression is empty, so the calculator always
returns "never" for it. -/
def jNeverCron : ScheduledJob :=
  { baseJob with id := "nc", schedule := CronSchedule.cron "" none }

/-- C5 counterexample: the calculator returns "never" for the empty-expression
cron job, yet applying an `error` result assigns the live
`nextRunAtMs = endedAt + 30000` (first-error backoff) — refuting "no
subsequent engine transition assigns it a live `nextRunAtMs`". -/
theorem never_schedule_cex :
    computeNextRunAtMs lib0 (CronSchedule.cron "" none) 150 = Except.ok none ∧
    nextRunAfter (applyJobResult lib0 jNeverCron rErr) = some (some (150 + 30000)) := by
  constructor
  · rfl
  · decide

/-- Witness for C5's amended theorem: the success branch of the same job gets
the 2-second minimum refire gap instead of staying unscheduled. -/
theorem never_schedule_fallback_witness :
    nextRunAfter (applyJobResult lib0 jNeverCron r0) =
      some (some (150 + MIN_REFIRE_GAP_MS)) :=
  (never_schedule_fallback lib0 jNeverCron r0 "" none rfl rfl rfl).2 rfl

/-- Witness for C3 at a concrete interval job: 60 s interval anchored at 0,
queried at 90 s, fires at 120 s. -/
theorem every_computeNextRun_correct_witness :
    computeNextRunAtMs lib0 (CronSchedule.every 60000 (some 0)) 90000 =
      Except.ok (some (everyNextRunAtMs 60000 (some 0) 90000)) ∧
    everyNextRunAtMs 60000 (some 0) 90000 =
      0 + max 1 (Int.fdiv (90000 - 0 + 60000 - 1) 60000) * 60000 :=
  ⟨(every_computeNextRun_correct lib0 60000 (some 0) 90000 0 60000
      (by decide) (by decide)).1,
   ((every_computeNextRun_correct lib0 60000 (some 0) 90000 0 60000
      (by decide) (by decide)).2.2 (by decide)).1⟩

/-- C4: the cron branch of the calculator never returns an instant `≤ nowMs`:
an empty or whitespace-only expression yields "never"; any returned instant
is strictly after `nowMs`; and whenever the evaluator's first answer is not
strictly after `nowMs`, the calculator re-queries from the start of the next
whole second and returns that result if it is in the future, otherwise
"never". -/
theorem cron_future_guard (lib : CronerLib) (e0 : String) (tz : Option String)
    (now : Int) :
    (strTrim e0 = "" →
      computeNextRunAtMs lib (CronSchedule.cron e0 tz) now = Except.ok none) ∧
    (∀ v, computeNextRunAtMs lib (CronSchedule.cron e0 tz) now = Except.ok (some v) →
      now < v) ∧
    (∀ m, strTrim e0 ≠ "" →
      lib.ctorError (strTrim e0) (resolveCronTimezone lib tz) = none →
      lib.nextRun (strTrim e0) (resolveCronTimezone lib tz) now = some m → m ≤ now →
      computeNextRunAtMs lib (CronSchedule.cron e0 tz) now =
        Except.ok (match lib.nextRun (strTrim e0) (resolveCronTimezone lib tz)
            (Int.fdiv now 1000 * 1000 + 1000) with
          | none => none
          | some retryMs => if now < retryMs then some retryMs else none)) := by
  refine ⟨?_, ?_, ?_⟩
  · intro h
    simp only [computeNextRunAtMs, h, if_true]
  · intro v hv
    simp only [computeNextRunAtMs] at hv
    split at hv
    · exact absurd hv (by simp)
    · split at hv
      · exact absurd hv (by simp)
      · split at hv
        · exact absurd hv (by simp)
        · split at hv
          · simp only [Except.ok.injEq, Option.some.injEq] at hv
            subst hv
            assumption
          · split at hv
            · exact absurd hv (by simp)
            · split at hv
              · simp only [Except.ok.injEq, Option.some.injEq] at hv
                subst hv
                assumption
              · exact absurd hv (by simp)
  · intro m hne hctor hnr hle
    simp only [computeNextRunAtMs, if_neg hne, hctor, hnr, if_neg (not_lt.mpr hle)]
    split <;> rfl

/-- Witness for C4: a whitespace expression yields "never", and with an
evaluator whose answer (the epoch) is not after `now = 5`, the retry from the
next whole second also yields a non-future instant, so the result is
"never". -/
theorem cron_future_guard_witness :
    computeNextRunAtMs lib0 (CronSchedule.cron "  " none) 7 = Except.ok none ∧
    computeNextRunAtMs lib0 (CronSchedule.cron "x" none) 5 = Except.ok none :=
  ⟨(cron_future_guard lib0 "  " none 7).1 (by decide),
   (cron_future_guard lib0 "x" none 5).2.2 0 (by decide) rfl rfl (by decide)⟩

/-- C6 (amended): for a non-empty expression the calculator constructs the
croner evaluator before any query; when the constructor throws (croner's
behaviour on a malformed pattern) the exception propagates out of
`computeNextRunAtMs` — the function returns "never" only for empty or
whitespace expressions and evaluator queries with no future match, not for
malformed syntax. -/
theorem cron_malformed_throws (lib : CronerLib) (e0 : String) (tz : Option String)
    (now : Int) (err : String) (hne : strTrim e0 ≠ "")
    (hctor : lib.ctorError (strTrim e0) (resolveCronTimezone lib tz) = some err) :
    computeNextRunAtMs lib (CronSchedule.cron e0 tz) now = Except.error err := by
  simp only [computeNextRunAtMs, if_neg hne, hctor]

/-- C6 counterexample: under the modelled croner constructor (which, like the
real library, rejects a pattern with an invalid field count by throwing), a
malformed seven-field expression makes `computeNextRunAtMs` propagate the
constructor's exception instead of returning "never". -/
theorem cron_malformed_cex :
    computeNextRunAtMs cronerModel (CronSchedule.cron "* * * * * * *" none) 7 =
      Except.error cronerBadMsg := by
  rfl

/-- Witness for C6's amended theorem at a one-field pattern. -/
theorem cron_malformed_throws_witness :
    computeNextRunAtMs cronerModel (CronSchedule.cron "not-a-cron" none) 0 =
      Except.error cronerBadMsg :=
  cron_malformed_throws cronerModel "not-a-cron" none 0 cronerBadMsg
    (by decide) (by decide)

/-- C7: after any terminal result, an `At` job is disabled with no
`nextRunAtMs`; it is removed from the collection exactly when
`deleteAfterRun` holds and the status is `ok`; and with `deleteAfterRun`
false it stays in `list()` output, disabled. -/
theorem at_job_terminal (lib : CronerLib) (jobs : List ScheduledJob)
    (job : ScheduledJob) (r : RunResult) (a : String)
    (hsched : job.schedule = CronSchedule.at a) (hmem : job ∈ jobs) :
    nextRunAfter (applyJobResult lib job r) = some none ∧
    enabledAfter (applyJobResult lib job r) = some false ∧
    ((∃ x, x ∈ jobsAfter (executeJobPost lib jobs job r) ∧ x.id = job.id) ↔
      ¬(job.deleteAfterRun = true ∧ r.status = RunStatus.ok)) ∧
    (job.deleteAfterRun = false →
      ∃ x, x ∈ listJobs (jobsAfter (executeJobPost lib jobs job r)) (some job.chatId) ∧
        x.id = job.id ∧ x.enabled = false) ∧
    (executeJobPost lib jobs job r).toOption.isSome = true := by
  have hatk : isAtKind job.schedule = true := by rw [hsched]; rfl
  have happly : applyJobResult lib job r = Except.ok
      { job with
        enabled := false,
        state := { job.state with
          nextRunAtMs := none,
          runningAtMs := none,
          lastRunAtMs := some r.startedAt,
          lastStatus := some (toLastStatus r.status),
          lastDurationMs := some (max 0 (r.endedAt - r.startedAt)),
          lastError := r.error,
          consecutiveErrors := some (if r.status == RunStatus.error
            then job.state.consecutiveErrors.getD 0 + 1 else 0) } } := by
    simp only [applyJobResult, hatk, if_true]
  obtain ⟨ap, happ, hapid, hapen, hapchat, hapnx⟩ :
      ∃ ap, applyJobResult lib job r = Except.ok ap ∧ ap.id = job.id ∧
        ap.enabled = false ∧ ap.chatId = job.chatId ∧ ap.state.nextRunAtMs = none :=
    ⟨_, happly, rfl, rfl, rfl, rfl⟩
  have hfj : (fun j => if (j.id == job.id) = true then ap else j) job = ap := by
    show (if (job.id == job.id) = true then ap else job) = ap
    exact if_pos (beq_self_eq_true job.id)
  have hmap : ap ∈ jobs.map fun j => if (j.id == job.id) = true then ap else j := by
    have h := List.mem_map_of_mem (fun j => if (j.id == job.id) = true then ap else j) hmem
    rwa [hfj] at h
  refine ⟨by simp [nextRunAfter, happ, hapnx], by simp [enabledAfter, happ, hapen],
    ?_, ?_, ?_⟩
  · by_cases hdel : (job.deleteAfterRun = true ∧ r.status = RunStatus.ok)
    · obtain ⟨hd, hs⟩ := hdel
      have hout : executeJobPost lib jobs job r = Except.ok
          ((jobs.map fun j => if (j.id == job.id) = true then ap else j).filter
            fun j => !(j.id == job.id)) := by
        simp [executeJobPost, happ, hatk, hd, hs]
      rw [hout]
      simp only [jobsAfter]
      constructor
      · rintro ⟨x, hx, hxid⟩
        have hne := (List.mem_filter.mp hx).2
        simp only [Bool.not_eq_true', beq_eq_false_iff_ne] at hne
        exact absurd hxid hne
      · intro hcon
        exact absurd ⟨hd, hs⟩ hcon
    · have hsd : ((isAtKind job.schedule && job.deleteAfterRun) &&
          (r.status == RunStatus.ok)) = false := by
        rw [hatk]
        cases hd : job.deleteAfterRun with
        | false => rfl
        | true =>
          cases hs : r.status with
          | ok => exact absurd ⟨hd, hs⟩ hdel
          | error => rfl
      have hout : executeJobPost lib jobs job r = Except.ok
          (jobs.map fun j => if (j.id == job.id) = true then ap else j) := by
        simp only [executeJobPost, happ]
        rw [hsd, if_neg (by simp : ¬(false = true))]
      rw [hout]
      simp only [jobsAfter]
      constructor
      · intro _
        exact hdel
      · intro _
        exact ⟨ap, hmap, hapid⟩
  · intro hdf
    have hsd : ((isAtKind job.schedule && job.deleteAfterRun) &&
        (r.status == RunStatus.ok)) = false := by
      rw [hatk, hdf]
      rfl
    have hout : executeJobPost lib jobs job r = Except.ok
        (jobs.map fun j => if (j.id == job.id) = true then ap else j) := by
      simp only [executeJobPost, happ]
      rw [hsd, if_neg (by simp : ¬(false = true))]
    rw [hout]
    simp only [jobsAfter, listJobs]
    refine ⟨ap, ?_, hapid, hapen⟩
    rw [List.mem_filter]
    refine ⟨hmap, ?_⟩
    rw [hapchat]
    exact beq_self_eq_true job.chatId
  · simp only [executeJobPost, happ]
    rfl

/-- A concrete one-shot job kept after its run. -/
def job7 : ScheduledJob :=
  { baseJob with
    id := "a1",
    schedule := CronSchedule.at "2025-06-15T12:00:00Z",
    deleteAfterRun := false }

/-- Witness for C7: the surviving `At` job is disabled, unscheduled, and
still listed for its chat. -/
theorem at_job_terminal_witness :
    nextRunAfter (applyJobResult lib0 job7 r0) = some none ∧
    (∃ x, x ∈ listJobs (jobsAfter (executeJobPost lib0 [job7] job7 r0))
        (some job7.chatId) ∧ x.id = job7.id ∧ x.enabled = false) :=
  ⟨(at_job_terminal lib0 [job7] job7 r0 "2025-06-15T12:00:00Z" rfl
      (List.mem_singleton.mpr rfl)).1,
   (at_job_terminal lib0 [job7] job7 r0 "2025-06-15T12:00:00Z" rfl
      (List.mem_singleton.mpr rfl)).2.2.2.1 rfl⟩
